import Mathlib

/-!
Verification of the goccc usage-aggregation engine (Go) against its
natural-language specification.

The Go source is embedded shallowly:

* Go `map[string]V` becomes an association list `List (String × V)` with
  unique keys; `m[k] = v` becomes `upsert`, `m[k]` read becomes `lookupMap`
  (with the Go zero value as the default where the source relies on it), and
  the `getOrCreateBucket`/`getOrCreateNestedBucket` + in-place mutation
  pattern of parser.go becomes `updMap`.
* Go `int` becomes `Int` (the claims under study never exercise 64-bit
  wrap-around) and Go `float64` becomes `ℚ` (exact arithmetic; the cost
  formulas contain only +, *, / by constants).
* `time.Parse(time.RFC3339, ·)` and `parsed.Local().Format("2006-01-02")`
  are kept abstract: the embedding is parameterised by a timestamp parser
  `tparse : String → Option Int` (an instant as an integer, `t.Before u` is
  `t < u`) and a local-calendar-day formatter `localDate : Int → String`.
  Every claim settled here is insensitive to the concrete choice.
* Filesystem walking is I/O and stays outside the model: `parseFile` takes
  the already-scanned lines of one file, and the aggregation phase of
  `parseLogs` takes the finalized dedup map, exactly as the Go code does
  after its `filepath.WalkDir` completes.
-/

namespace Goccc



/-! ### Association-list model of Go maps -/

/-- Read `m[k]` on a Go map: the value at the first (hence unique) matching
key, if present. -/
def lookupMap {α : Type} : List (String × α) → String → Option α
  | [], _ => none
  | (k, v) :: rest, key => if k = key then some v else lookupMap rest key

/-- Read `m[k]` on a Go map in value position: a missing key yields the zero
value `d`. -/
def lookupMapD {α : Type} (m : List (String × α)) (key : String) (d : α) : α :=
  (lookupMap m key).getD d

/-- The Go map assignment `m[k] = v`: replace the binding in place, or append
a fresh one. -/
def upsert {α : Type} : List (String × α) → String → α → List (String × α)
  | [], key, v => [(key, v)]
  | (k, w) :: rest, key, v =>
    if k = key then (key, v) :: rest else (k, w) :: upsert rest key v

/-- The `getOrCreateBucket`/`getOrCreateNestedBucket` pattern of parser.go:
fetch the value at `key` (creating the zero value `d` if absent) and mutate it
with `f`, in place. -/
def updMap {α : Type} : List (String × α) → String → α → (α → α) → List (String × α)
  | [], key, d, f => [(key, f d)]
  | (k, v) :: rest, key, d, f =>
    if k = key then (k, f v) :: rest else (k, v) :: updMap rest key d f

/-! ### Pricing (src/pricing.go) -/

/-- `ModelPricing` (pricing.go): the per-model rate card, base input/output
rates in dollars per million tokens. -/
structure ModelPricing where
  input : ℚ
  output : ℚ
deriving DecidableEq, Repr

/-- `(p ModelPricing) CacheWrite5m()`: `p.Input * 1.25`. -/
def ModelPricing.cacheWrite5m (p : ModelPricing) : ℚ := p.input * 1.25

/-- `(p ModelPricing) CacheWrite1h()`: `p.Input * 2.0`. -/
def ModelPricing.cacheWrite1h (p : ModelPricing) : ℚ := p.input * 2.0

/-- `(p ModelPricing) CacheRead()`: `p.Input * 0.1`. -/
def ModelPricing.cacheRead (p : ModelPricing) : ℚ := p.input * 0.1

/-- `pricingTable` (pricing.go): exact-match rate table. -/
def pricingTable : List (String × ModelPricing) :=
  [("claude-opus-4-6", ⟨5, 25⟩),
   ("claude-opus-4-5-20251101", ⟨5, 25⟩),
   ("claude-opus-4-1-20250414", ⟨15, 75⟩),
   ("claude-sonnet-4-6", ⟨3, 15⟩),
   ("claude-sonnet-4-5-20250929", ⟨3, 15⟩),
   ("claude-sonnet-4-20250514", ⟨3, 15⟩),
   ("claude-haiku-4-5-20251001", ⟨1, 5⟩),
   ("claude-haiku-3-5-20241022", ⟨0.8, 4⟩)]

/-- `familyPrefixes` (pricing.go), in source order: family prefix → table key. -/
def familyPrefixes : List (String × String) :=
  [("claude-opus-4-6", "claude-opus-4-6"),
   ("claude-opus-4-5", "claude-opus-4-5-20251101"),
   ("claude-opus-4-1", "claude-opus-4-1-20250414"),
   ("claude-opus-4", "claude-opus-4-1-20250414"),
   ("claude-sonnet-4-6", "claude-sonnet-4-6"),
   ("claude-sonnet-4-5", "claude-sonnet-4-5-20250929"),
   ("claude-sonnet-4", "claude-sonnet-4-20250514"),
   ("claude-sonnet-3", "claude-sonnet-4-5-20250929"),
   ("claude-haiku-4-5", "claude-haiku-4-5-20251001"),
   ("claude-haiku-3-5", "claude-haiku-3-5-20241022"),
   ("claude-haiku-3", "claude-haiku-3-5-20241022")]

/-- The table after pricing.go's package initialisation, which sorts
`familyPrefixes` by descending prefix length (`sort.Slice`; the tie order is
unspecified, and `resolvePricing` below is insensitive to it because two
distinct equal-length prefixes never both match one model). -/
def familyPrefixesSorted : List (String × String) :=
  [("claude-sonnet-4-6", "claude-sonnet-4-6"),
   ("claude-sonnet-4-5", "claude-sonnet-4-5-20250929"),
   ("claude-haiku-4-5", "claude-haiku-4-5-20251001"),
   ("claude-haiku-3-5", "claude-haiku-3-5-20241022"),
   ("claude-opus-4-6", "claude-opus-4-6"),
   ("claude-opus-4-5", "claude-opus-4-5-20251101"),
   ("claude-opus-4-1", "claude-opus-4-1-20250414"),
   ("claude-sonnet-4", "claude-sonnet-4-20250514"),
   ("claude-sonnet-3", "claude-sonnet-4-5-20250929"),
   ("claude-haiku-3", "claude-haiku-3-5-20241022"),
   ("claude-opus-4", "claude-opus-4-1-20250414")]

/-- `strings.HasPrefix(s, pre)`, computed on the underlying character lists
(the kernel can evaluate this form, unlike `String.isPrefixOf`). -/
def strStartsWith (s pre : String) : Bool :=
  List.isPrefixOf pre.data s.data

/-- The prefix-scan loop of `resolvePricing` (pricing.go lines 59-63): first
entry of the (sorted) table whose prefix matches. -/
def findFamily : List (String × String) → String → Option (String × String)
  | [], _ => none
  | fp :: rest, model =>
    if strStartsWith model fp.1 then some fp else findFamily rest model

/-- `defaultPricing = pricingTable["claude-sonnet-4-6"]`. -/
def defaultPricing : ModelPricing :=
  lookupMapD pricingTable "claude-sonnet-4-6" ⟨0, 0⟩

/-- `resolvePricing` (pricing.go lines 55-65): exact table hit, then first
match in the length-sorted family-prefix table (a Go map read
`pricingTable[fp.Key]` yields the zero rate card if the key were absent),
then the global fallback card. -/
def resolvePricing (model : String) : ModelPricing :=
  match lookupMap pricingTable model with
  | some p => p
  | none =>
    match findFamily familyPrefixesSorted model with
    | some fp => lookupMapD pricingTable fp.2 ⟨0, 0⟩
    | none => defaultPricing

/-! ### Usage payloads and cost (src/pricing.go) -/

/-- `CacheCreation` (pricing.go): the structured 5m/1h cache-write breakdown. -/
structure CacheCreation where
  ephemeral5mInputTokens : Int
  ephemeral1hInputTokens : Int
deriving DecidableEq, Repr

/-- `Usage` (pricing.go): the raw usage payload of one assistant event. -/
structure Usage where
  inputTokens : Int
  outputTokens : Int
  cacheReadInputTokens : Int
  cacheCreationInputTokens : Int
  cacheCreation : Option CacheCreation
deriving DecidableEq, Repr

/-- `Usage.CacheWriteTokens` (pricing.go lines 80-89): take the structured
breakdown when present; when both its counts are zero (or it is absent) and
the flat legacy total is positive, put the whole flat total in the 5m tier. -/
def Usage.cacheWriteTokens (u : Usage) : Int × Int :=
  let c :=
    match u.cacheCreation with
    | some cc => (cc.ephemeral5mInputTokens, cc.ephemeral1hInputTokens)
    | none => (0, 0)
  if c.1 = 0 ∧ c.2 = 0 ∧ 0 < u.cacheCreationInputTokens then
    (u.cacheCreationInputTokens, c.2)
  else c

/-- `calcCost` (pricing.go lines 91-101). -/
def calcCost (model : String) (usage : Usage) : ℚ :=
  let p := resolvePricing model
  let mtok : ℚ := 1000000
  let c := usage.cacheWriteTokens
  (usage.inputTokens : ℚ) / mtok * p.input +
    (usage.outputTokens : ℚ) / mtok * p.output +
    (c.1 : ℚ) / mtok * p.cacheWrite5m +
    (c.2 : ℚ) / mtok * p.cacheWrite1h +
    (usage.cacheReadInputTokens : ℚ) / mtok * p.cacheRead

/-! ### Buckets (src/parser.go) -/

/-- `Bucket` (parser.go lines 15-23): the accumulator for one aggregation key. -/
structure Bucket where
  inputTokens : Int
  outputTokens : Int
  cacheRead : Int
  cacheWrite5m : Int
  cacheWrite1h : Int
  cost : ℚ
  requests : Nat
deriving DecidableEq, Repr

/-- The zero value `&Bucket{}` created by `getOrCreateBucket`. -/
def Bucket.zero : Bucket := ⟨0, 0, 0, 0, 0, 0, 0⟩

/-- Componentwise bucket addition (used to state additivity; the source only
ever adds one record's contribution at a time, see `Bucket.accum`). -/
def Bucket.addB (a b : Bucket) : Bucket :=
  ⟨a.inputTokens + b.inputTokens, a.outputTokens + b.outputTokens,
   a.cacheRead + b.cacheRead, a.cacheWrite5m + b.cacheWrite5m,
   a.cacheWrite1h + b.cacheWrite1h, a.cost + b.cost, a.requests + b.requests⟩

instance : Zero Bucket := ⟨Bucket.zero⟩

instance : Add Bucket := ⟨Bucket.addB⟩

instance : AddCommMonoid Bucket where
  add_assoc a b c := by
    show Bucket.addB (Bucket.addB a b) c = Bucket.addB a (Bucket.addB b c)
    simp [Bucket.addB, add_assoc]
  zero_add a := by
    show Bucket.addB Bucket.zero a = a
    cases a
    simp [Bucket.addB, Bucket.zero]
  add_zero a := by
    show Bucket.addB a Bucket.zero = a
    cases a
    simp [Bucket.addB, Bucket.zero]
  add_comm a b := by
    show Bucket.addB a b = Bucket.addB b a
    simp [Bucket.addB, add_comm]
  nsmul := nsmulRec

/-! ### Dedup records and per-line extraction (src/parser.go) -/

/-- `dedupRecord` (parser.go lines 47-52), the canonical record for one
request identifier.

The `gitBranch` field is Modelled from the spec: the branch-aware revision of
parser.go is not part of the sources at hand — only its tests are
(`TestBranchAggregation` in parser_test.go reads `data.BranchUsage` and emits
a top-level `gitBranch` JSON string) — and the spec says an event carries an
"optional branch label string". All other fields are from parser.go. -/
structure DedupRecord where
  model : String
  project : String
  date : String
  gitBranch : String
  usage : Usage
deriving DecidableEq, Repr

/-- The message part of `jsonRecord` (parser.go lines 41-44). -/
structure Message where
  model : String
  usage : Option Usage
deriving DecidableEq, Repr

/-- `jsonRecord` (parser.go lines 37-45), one decoded JSONL line. `gitBranch`
is Modelled from the spec (see `DedupRecord`); the remaining fields are from
parser.go. The `type` discriminant is enforced before decoding by the byte
prefilter (lines 69-71), so only assistant-typed lines are modelled. -/
structure JsonRecord where
  requestID : String
  timestamp : String
  gitBranch : String
  message : Message
deriving DecidableEq, Repr

/-- One scanned line of a .jsonl file, after the byte prefilter: either JSON
that fails to decode (parser.go lines 73-77) or a decoded record. Empty lines
and lines without the assistant discriminant are skipped before this point and
touch no state, so they are not represented. -/
inductive LineItem where
  | malformed
  | record (rec : JsonRecord)
deriving DecidableEq, Repr

/-- State threaded through `parseFile`: its two counter return values and the
caller-owned dedup map. -/
structure ParseFileState where
  rawCount : Nat
  parseErrs : Nat
  deduped : List (String × DedupRecord)
deriving DecidableEq, Repr

/-- The timestamp/date/cutoff block of `parseFile` (parser.go lines 85-98):
`none` means the line is skipped; otherwise the resolved date string is
returned together with the parse-error increment. An empty timestamp is
dropped only under an active cutoff; a non-empty timestamp that fails RFC3339
parsing bumps the error counter and falls through with the date left at
"unknown". -/
def resolveDate (tparse : String → Option Int) (localDate : Int → String)
    (cutoff : Int) (hasCutoff : Bool) (ts : String) : Option (String × Bool) :=
  if ts ≠ "" then
    match tparse ts with
    | some t =>
      if hasCutoff ∧ t < cutoff then none
      else some (localDate t, false)
    | none => some ("unknown", true)
  else if hasCutoff then none
  else some ("unknown", false)

/-- The placeholder identifier `fmt.Sprintf("_noid_%s_%d", filepath.Base(path),
rawCount)` of parser.go line 105. -/
def synthRequestID (fileBase : String) (rawCount : Nat) : String :=
  "_noid_" ++ fileBase ++ "_" ++ toString rawCount

/-- The body of the scan loop of `parseFile` (parser.go lines 63-114) for one
line that passed the byte prefilter. -/
def processLine (tparse : String → Option Int) (localDate : Int → String)
    (cutoff : Int) (hasCutoff : Bool) (projectSlug fileBase : String)
    (st : ParseFileState) : LineItem → ParseFileState
  | .malformed => { st with parseErrs := st.parseErrs + 1 }
  | .record rec =>
    match rec.message.usage with
    | none => st
    | some usage =>
      if rec.message.model = "" then st
      else if rec.message.model = "<synthetic>" then st
      else
        match resolveDate tparse localDate cutoff hasCutoff rec.timestamp with
        | none => st
        | some (dateStr, errInc) =>
          let parseErrs := st.parseErrs + (if errInc then 1 else 0)
          let rawCount := st.rawCount + 1
          let requestID :=
            if rec.requestID = "" then synthRequestID fileBase rawCount
            else rec.requestID
          { rawCount := rawCount, parseErrs := parseErrs,
            deduped := upsert st.deduped requestID
              ⟨rec.message.model, projectSlug, dateStr, rec.gitBranch, usage⟩ }

/-- `parseFile` (parser.go lines 54-119) on the scanned lines of one file:
the per-file counters start at zero, the dedup map is shared with the caller. -/
def parseFile (tparse : String → Option Int) (localDate : Int → String)
    (cutoff : Int) (hasCutoff : Bool) (projectSlug fileBase : String)
    (deduped : List (String × DedupRecord)) (lines : List LineItem) :
    ParseFileState :=
  lines.foldl (processLine tparse localDate cutoff hasCutoff projectSlug fileBase)
    ⟨0, 0, deduped⟩

/-! ### Aggregation (src/parser.go) -/

/-- `ParseResult` (parser.go lines 27-35). The first three views and the
counters are from parser.go; `branchUsage` is Modelled from the spec: the
branch-aware revision of parser.go is missing from the sources (only
`TestBranchAggregation` in parser_test.go, which reads `data.BranchUsage`
keyed project → branch → model, exercises it), and the spec lists a fourth
view "by (project, branch, model)". `Duration` is wall-clock time and is not
modelled. -/
structure ParseResult where
  modelUsage : List (String × Bucket)
  dailyUsage : List (String × List (String × Bucket))
  projectUsage : List (String × List (String × Bucket))
  branchUsage : List (String × List (String × List (String × Bucket)))
  totalFiles : Nat
  totalRecords : Nat
  parseErrors : Nat
deriving DecidableEq, Repr

/-- The `b.InputTokens += ...; ...; b.Requests++` block of parser.go lines
207-215, applied to one bucket for the canonical record `r`. -/
def Bucket.accum (b : Bucket) (r : DedupRecord) : Bucket :=
  { inputTokens := b.inputTokens + r.usage.inputTokens,
    outputTokens := b.outputTokens + r.usage.outputTokens,
    cacheRead := b.cacheRead + r.usage.cacheReadInputTokens,
    cacheWrite5m := b.cacheWrite5m + r.usage.cacheWriteTokens.1,
    cacheWrite1h := b.cacheWrite1h + r.usage.cacheWriteTokens.2,
    cost := b.cost + calcCost r.model r.usage,
    requests := b.requests + 1 }

/-- Modelled from the spec: the branch key of a canonical record — the spec
says branch "defaults to a reserved \x22(no branch)\x22 sentinel when absent",
and `TestBranchAggregation_NoBranch` expects the `"(no branch)"` bucket for
records without a `gitBranch` label. -/
def branchKeyOf (r : DedupRecord) : String :=
  if r.gitBranch = "" then "(no branch)" else r.gitBranch

/-- One iteration of the aggregation loop of `parseLogs` (parser.go lines
197-216): the canonical record `r` is folded into the by-model, by-(date,
model) and by-(project, model) views; the by-(project, branch, model) view
`branchUsage` is Modelled from the spec (see `ParseResult`). All views
receive the identical contribution `Bucket.accum · r`. -/
def foldRecord (res : ParseResult) (r : DedupRecord) : ParseResult :=
  { res with
    modelUsage := updMap res.modelUsage r.model Bucket.zero (Bucket.accum · r),
    dailyUsage := updMap res.dailyUsage r.date []
      (fun inner => updMap inner r.model Bucket.zero (Bucket.accum · r)),
    projectUsage := updMap res.projectUsage r.project []
      (fun inner => updMap inner r.model Bucket.zero (Bucket.accum · r)),
    branchUsage := updMap res.branchUsage r.project []
      (fun byBranch => updMap byBranch (branchKeyOf r) []
        (fun inner => updMap inner r.model Bucket.zero (Bucket.accum · r))) }

/-- The aggregation phase of `parseLogs` (parser.go lines 188-218): the result
is initialised with empty views and the counters (`TotalRecords` is the size
of the finalized dedup map), then every canonical record is folded in. The Go
loop ranges over map values in unspecified order; the embedding folds the
association list in its stored order, one admissible order. -/
def parseLogsAggregate (totalFiles parseErrors : Nat)
    (deduped : List (String × DedupRecord)) : ParseResult :=
  (deduped.map Prod.snd).foldl foldRecord
    { modelUsage := [], dailyUsage := [], projectUsage := [], branchUsage := [],
      totalFiles := totalFiles, totalRecords := deduped.length,
      parseErrors := parseErrors }

/-- `UsageTotals` (parser.go lines 239-248). -/
structure UsageTotals where
  cost : ℚ
  input : Int
  output : Int
  cacheR : Int
  cacheW : Int
  cacheW5m : Int
  cacheW1h : Int
  requests : Nat
deriving DecidableEq, Repr

/-- `ParseResult.Totals` (parser.go lines 265-278): fold the top-level
by-model view, then derive the total cache write. -/
def ParseResult.totals (r : ParseResult) : UsageTotals :=
  let t := r.modelUsage.foldl
    (fun (t : UsageTotals) e =>
      { t with
        cost := t.cost + e.2.cost,
        input := t.input + e.2.inputTokens,
        output := t.output + e.2.outputTokens,
        cacheR := t.cacheR + e.2.cacheRead,
        cacheW5m := t.cacheW5m + e.2.cacheWrite5m,
        cacheW1h := t.cacheW1h + e.2.cacheWrite1h,
        requests := t.requests + e.2.requests })
    ⟨0, 0, 0, 0, 0, 0, 0, 0⟩
  { t with cacheW := t.cacheW5m + t.cacheW1h }

/-- The bucket a view holds at `k`, the zero bucket if the key is absent. -/
def bucketIn (m : List (String × Bucket)) (k : String) : Bucket :=
  lookupMapD m k Bucket.zero

/-- The bucket a nested view holds at `(k1, k2)`. -/
def bucketIn2 (m : List (String × List (String × Bucket))) (k1 k2 : String) :
    Bucket :=
  bucketIn (lookupMapD m k1 []) k2

/-- The bucket a doubly nested view holds at `(k1, k2, k3)`. -/
def bucketIn3 (m : List (String × List (String × List (String × Bucket))))
    (k1 k2 k3 : String) : Bucket :=
  bucketIn2 (lookupMapD m k1 []) k2 k3

/-- The contribution of one canonical record, as a standalone bucket. -/
def recordDelta (r : DedupRecord) : Bucket := Bucket.accum Bucket.zero r

/-- The by-model projection of a nested view, summed over its outer keys:
"projecting the dimensioned view back onto by model". -/
def sumOver (nested : List (String × List (String × Bucket))) (model : String) :
    Bucket :=
  (nested.map (fun e => bucketIn e.2 model)).sum

/-- The additivity invariant, for both dimensioned views of parser.go, as a
property of intermediate aggregation states. -/
def AdditivityInv (res : ParseResult) : Prop :=
  ∀ model : String,
    sumOver res.dailyUsage model = bucketIn res.modelUsage model ∧
    sumOver res.projectUsage model = bucketIn res.modelUsage model

/-- Total requests recorded in a top-level by-model view. -/
def reqSum (m : List (String × Bucket)) : Nat :=
  (m.map (fun e => e.2.requests)).sum

/-! ### Decimal printing is injective

`synthRequestID` embeds `fmt.Sprintf("_noid_%s_%d", base, rawCount)`; to
reason about placeholder collisions we need that `%d` printing (Lean side:
`Nat.repr`) is injective and prints only digit characters. -/

/-- The conditions under which the scan loop of `parseFile` turns a decoded
line into a dedup-map write (parser.go lines 78-98): a usage payload and a
model identifier are present, the model is not the `<synthetic>` error
sentinel, and the timestamp block does not drop the line. -/
def keptBillable (tparse : String → Option Int) (localDate : Int → String)
    (cutoff : Int) (hasCutoff : Bool) (rec : JsonRecord) : Prop :=
  rec.message.usage.isSome = true ∧ rec.message.model ≠ "" ∧
    rec.message.model ≠ "<synthetic>" ∧
    (resolveDate tparse localDate cutoff hasCutoff rec.timestamp).isSome = true

instance (tparse : String → Option Int) (localDate : Int → String)
    (cutoff : Int) (hasCutoff : Bool) (rec : JsonRecord) :
    Decidable (keptBillable tparse localDate cutoff hasCutoff rec) := by
  unfold keptBillable
  infer_instance

/-- The canonical record written to the dedup map for a kept line (parser.go
lines 108-113), assembled from the decoded record's own fields. -/
def mkDedup (tparse : String → Option Int) (localDate : Int → String)
    (cutoff : Int) (hasCutoff : Bool) (projectSlug : String)
    (rec : JsonRecord) : DedupRecord :=
  ⟨rec.message.model, projectSlug,
   ((resolveDate tparse localDate cutoff hasCutoff rec.timestamp).getD
     ("unknown", false)).1,
   rec.gitBranch, rec.message.usage.getD ⟨0, 0, 0, 0, none⟩⟩

/-- Fixture: first streaming event of request `req_1` (output count 10). -/
def wRec1 : JsonRecord :=
  ⟨"req_1", "", "", ⟨"claude-opus-4-6", some ⟨100, 10, 500, 200, none⟩⟩⟩

/-- Fixture: final streaming event of request `req_1` (output count 50). -/
def wRec2 : JsonRecord :=
  ⟨"req_1", "", "", ⟨"claude-opus-4-6", some ⟨100, 50, 500, 200, none⟩⟩⟩

theorem lookupMap_updMap_self {α : Type} (m : List (String × α)) (key : String)
    (d : α) (f : α → α) :
    lookupMap (updMap m key d f) key = some (f (lookupMapD m key d)) := by
  induction m with
  | nil => simp [updMap, lookupMap, lookupMapD]
  | cons kv rest ih =>
    obtain ⟨k, v⟩ := kv
    by_cases h : k = key
    · subst h
      simp [updMap, lookupMap, lookupMapD]
    · simp only [updMap, if_neg h, lookupMap, lookupMapD, ih]

theorem lookupMap_updMap_ne {α : Type} (m : List (String × α)) (key key' : String)
    (d : α) (f : α → α) (h : key' ≠ key) :
    lookupMap (updMap m key d f) key' = lookupMap m key' := by
  induction m with
  | nil => simp [updMap, lookupMap, Ne.symm h]
  | cons kv rest ih =>
    obtain ⟨k, v⟩ := kv
    by_cases hk : k = key
    · subst hk
      simp [updMap, lookupMap, Ne.symm h]
    · simp only [updMap, if_neg hk, lookupMap]
      by_cases hk' : k = key'
      · simp [hk']
      · simp [hk', ih]

theorem lookupMap_upsert_self {α : Type} (m : List (String × α)) (key : String) (v : α) :
    lookupMap (upsert m key v) key = some v := by
  induction m with
  | nil => simp [upsert, lookupMap]
  | cons kv rest ih =>
    obtain ⟨k, w⟩ := kv
    by_cases h : k = key
    · simp [upsert, h, lookupMap]
    · simp [upsert, h, lookupMap, ih]

theorem upsert_upsert_self {α : Type} (m : List (String × α)) (key : String) (v w : α) :
    upsert (upsert m key v) key w = upsert m key w := by
  induction m with
  | nil => simp [upsert]
  | cons kv rest ih =>
    obtain ⟨k, u⟩ := kv
    by_cases h : k = key
    · simp [upsert, h]
    · simp [upsert, h, ih]

theorem familyPrefixesSorted_perm : familyPrefixesSorted.Perm familyPrefixes := by
  decide

theorem familyPrefixesSorted_sorted :
    familyPrefixesSorted.Sorted (fun a b => b.1.length ≤ a.1.length) := by
  decide

theorem findFamily_eq_none_iff (l : List (String × String)) (model : String) :
    findFamily l model = none ↔ ∀ fp ∈ l, strStartsWith model fp.1 = false := by
  induction l with
  | nil => simp [findFamily]
  | cons fp rest ih =>
    by_cases h : strStartsWith model fp.1
    · simp [findFamily, h]
    · simp only [findFamily, if_neg h, ih, List.mem_cons]
      constructor
      · intro hall fp2 hfp2
        rcases hfp2 with rfl | hfp2
        · simpa using h
        · exact hall fp2 hfp2
      · intro hall fp2 hfp2
        exact hall fp2 (Or.inr hfp2)

/-- In a table sorted by descending prefix length, the first matching entry is
a matching entry of maximal prefix length. -/
theorem findFamily_longest (l : List (String × String)) (model : String)
    (hsorted : l.Sorted (fun a b => b.1.length ≤ a.1.length))
    (fp : String × String) (hfind : findFamily l model = some fp) :
    fp ∈ l ∧ strStartsWith model fp.1 = true ∧
      ∀ fp2 ∈ l, strStartsWith model fp2.1 = true → fp2.1.length ≤ fp.1.length := by
  induction l with
  | nil => simp [findFamily] at hfind
  | cons hd rest ih =>
    rw [List.sorted_cons] at hsorted
    by_cases h : strStartsWith model hd.1
    · simp only [findFamily, if_pos h, Option.some.injEq] at hfind
      subst hfind
      refine ⟨List.mem_cons_self _ _, h, ?_⟩
      intro fp2 hfp2 _
      rcases List.mem_cons.mp hfp2 with rfl | hfp2
      · exact le_refl _
      · exact hsorted.1 fp2 hfp2
    · simp only [findFamily, if_neg h] at hfind
      obtain ⟨hmem, hmatch, hmax⟩ := ih hsorted.2 hfind
      refine ⟨List.mem_cons_of_mem _ hmem, hmatch, ?_⟩
      intro fp2 hfp2 hm2
      rcases List.mem_cons.mp hfp2 with rfl | hfp2
      · exact absurd hm2 (by simpa using h)
      · exact hmax fp2 hfp2 hm2

theorem Bucket.ext_fields (a b : Bucket)
    (h1 : a.inputTokens = b.inputTokens) (h2 : a.outputTokens = b.outputTokens)
    (h3 : a.cacheRead = b.cacheRead) (h4 : a.cacheWrite5m = b.cacheWrite5m)
    (h5 : a.cacheWrite1h = b.cacheWrite1h) (h6 : a.cost = b.cost)
    (h7 : a.requests = b.requests) : a = b := by
  cases a; cases b; simp_all

theorem Bucket.add_def (a b : Bucket) : a + b = a.addB b := rfl

theorem Bucket.zero_def : (0 : Bucket) = Bucket.zero := rfl

theorem Bucket.accum_eq_add (b : Bucket) (r : DedupRecord) :
    b.accum r = b + recordDelta r := by
  simp only [recordDelta, Bucket.accum, Bucket.add_def, Bucket.addB, Bucket.zero]
  refine Bucket.ext_fields _ _ ?_ ?_ ?_ ?_ ?_ ?_ ?_ <;> simp

theorem lookupMapD_updMap_self {α : Type} (m : List (String × α)) (key : String)
    (d : α) (f : α → α) :
    lookupMapD (updMap m key d f) key d = f (lookupMapD m key d) := by
  simp [lookupMapD, lookupMap_updMap_self]

theorem lookupMapD_updMap_ne {α : Type} (m : List (String × α)) (key key' : String)
    (d d' : α) (f : α → α) (h : key' ≠ key) :
    lookupMapD (updMap m key d f) key' d' = lookupMapD m key' d' := by
  simp [lookupMapD, lookupMap_updMap_ne _ _ _ _ _ h]

theorem bucketIn_updMap_self (m : List (String × Bucket)) (key : String)
    (f : Bucket → Bucket) :
    bucketIn (updMap m key Bucket.zero f) key = f (bucketIn m key) :=
  lookupMapD_updMap_self m key Bucket.zero f

theorem bucketIn_updMap_ne (m : List (String × Bucket)) (key key' : String)
    (f : Bucket → Bucket) (h : key' ≠ key) :
    bucketIn (updMap m key Bucket.zero f) key' = bucketIn m key' :=
  lookupMapD_updMap_ne m key key' Bucket.zero Bucket.zero f h

/-- Updating one key of a view shifts the sum of any additive projection of
its values by the update's contribution, provided the created zero value
projects to zero. -/
theorem sum_map_updMap {α : Type} {M : Type} [AddCommMonoid M]
    (g : α → M) (m : List (String × α)) (key : String) (d : α) (f : α → α)
    (δ : M) (hf : ∀ v, g (f v) = g v + δ) (hd : g d = 0) :
    ((updMap m key d f).map (fun e => g e.2)).sum =
      (m.map (fun e => g e.2)).sum + δ := by
  induction m with
  | nil => simp [updMap, hf, hd]
  | cons kv rest ih =>
    obtain ⟨k, v⟩ := kv
    by_cases h : k = key
    · subst h
      simp only [updMap, eq_self_iff_true, if_true, List.map_cons, List.sum_cons, hf]
      rw [add_right_comm]
    · simp only [updMap, if_neg h, List.map_cons, List.sum_cons, ih]
      rw [add_assoc]

theorem bucketIn_empty (model : String) : bucketIn [] model = 0 := rfl

theorem sumOver_updMap (nested : List (String × List (String × Bucket)))
    (okey : String) (r : DedupRecord) (model : String) :
    sumOver (updMap nested okey []
        (fun inner => updMap inner r.model Bucket.zero (Bucket.accum · r))) model =
      sumOver nested model + (if model = r.model then recordDelta r else 0) := by
  have hf : ∀ v : List (String × Bucket),
      bucketIn (updMap v r.model Bucket.zero (Bucket.accum · r)) model =
        bucketIn v model + (if model = r.model then recordDelta r else 0) := by
    intro v
    by_cases h : model = r.model
    · subst h
      rw [bucketIn_updMap_self, Bucket.accum_eq_add, if_pos rfl]
    · rw [bucketIn_updMap_ne _ _ _ _ h, if_neg h, add_zero]
  exact sum_map_updMap (fun inner => bucketIn inner model) nested okey []
    (fun inner => updMap inner r.model Bucket.zero (Bucket.accum · r))
    (if model = r.model then recordDelta r else 0) hf rfl

theorem bucketIn_modelUsage_foldRecord (res : ParseResult) (r : DedupRecord)
    (model : String) :
    bucketIn (foldRecord res r).modelUsage model =
      bucketIn res.modelUsage model + (if model = r.model then recordDelta r else 0) := by
  by_cases h : model = r.model
  · subst h
    simp only [foldRecord, bucketIn_updMap_self, if_pos rfl]
    exact Bucket.accum_eq_add _ r
  · simp only [foldRecord, bucketIn_updMap_ne _ _ _ _ h, if_neg h, add_zero]

theorem additivityInv_foldRecord (res : ParseResult) (r : DedupRecord)
    (h : AdditivityInv res) : AdditivityInv (foldRecord res r) := by
  intro model
  have hd : (foldRecord res r).dailyUsage =
      updMap res.dailyUsage r.date []
        (fun inner => updMap inner r.model Bucket.zero (Bucket.accum · r)) := rfl
  have hp : (foldRecord res r).projectUsage =
      updMap res.projectUsage r.project []
        (fun inner => updMap inner r.model Bucket.zero (Bucket.accum · r)) := rfl
  constructor
  · rw [hd, sumOver_updMap, (h model).1, bucketIn_modelUsage_foldRecord]
  · rw [hp, sumOver_updMap, (h model).2, bucketIn_modelUsage_foldRecord]

theorem additivityInv_foldl (recs : List DedupRecord) (res : ParseResult)
    (h : AdditivityInv res) : AdditivityInv (recs.foldl foldRecord res) := by
  induction recs generalizing res with
  | nil => exact h
  | cons r rest ih => exact ih _ (additivityInv_foldRecord res r h)

theorem reqSum_foldRecord (res : ParseResult) (r : DedupRecord) :
    reqSum (foldRecord res r).modelUsage = reqSum res.modelUsage + 1 := by
  exact sum_map_updMap (fun b => b.requests) res.modelUsage r.model Bucket.zero
    (Bucket.accum · r) 1 (fun v => rfl) rfl

theorem reqSum_foldl (recs : List DedupRecord) (res : ParseResult) :
    reqSum ((recs.foldl foldRecord res).modelUsage) =
      reqSum res.modelUsage + recs.length := by
  induction recs generalizing res with
  | nil => simp
  | cons r rest ih =>
    simp only [List.foldl_cons, ih, reqSum_foldRecord, List.length_cons]
    omega

theorem totals_requests_foldl (m : List (String × Bucket)) (t : UsageTotals) :
    (m.foldl
      (fun (t : UsageTotals) e =>
        { t with
          cost := t.cost + e.2.cost,
          input := t.input + e.2.inputTokens,
          output := t.output + e.2.outputTokens,
          cacheR := t.cacheR + e.2.cacheRead,
          cacheW5m := t.cacheW5m + e.2.cacheWrite5m,
          cacheW1h := t.cacheW1h + e.2.cacheWrite1h,
          requests := t.requests + e.2.requests })
      t).requests = t.requests + reqSum m := by
  induction m generalizing t with
  | nil => simp [reqSum]
  | cons e rest ih =>
    simp only [List.foldl_cons, ih, reqSum, List.map_cons, List.sum_cons]
    omega

theorem totals_requests_eq_reqSum (res : ParseResult) :
    res.totals.requests = reqSum res.modelUsage := by
  simpa using totals_requests_foldl res.modelUsage ⟨0, 0, 0, 0, 0, 0, 0, 0⟩

theorem toDigitsCore_eq (f : Nat) :
    ∀ (n : Nat) (acc : List Char), n < f →
      Nat.toDigitsCore 10 f n acc =
        if n = 0 then '0' :: acc
        else ((Nat.digits 10 n).map Nat.digitChar).reverse ++ acc := by
  induction f with
  | zero => intro n acc h; omega
  | succ f ih =>
    intro n acc h
    conv_lhs => rw [Nat.toDigitsCore]
    by_cases hdiv : n / 10 = 0
    · have hn10 : n < 10 := by omega
      simp only [hdiv, if_true, eq_self_iff_true]
      by_cases hn : n = 0
      · subst hn
        have h00 : Nat.digitChar 0 = '0' := by decide
        simp [h00]
      · have h0 : 0 < n := Nat.pos_of_ne_zero hn
        have hdig : Nat.digits 10 n = [n] := by
          rw [Nat.digits_def' (by norm_num : (1:Nat) < 10) h0,
            Nat.mod_eq_of_lt hn10, hdiv, Nat.digits_zero]
        simp [hn, hdig, Nat.mod_eq_of_lt hn10]
    · have h0 : 0 < n := by
        rcases Nat.eq_zero_or_pos n with rfl | h0
        · simp at hdiv
        · exact h0
      have hlt : n / 10 < f := by
        have := Nat.div_lt_self h0 (by norm_num : (1:Nat) < 10)
        omega
      simp only [hdiv, if_false]
      rw [ih (n / 10) (Nat.digitChar (n % 10) :: acc) hlt]
      simp only [hdiv, if_false]
      rw [Nat.digits_def' (by norm_num : (1:Nat) < 10) h0]
      have hn0 : n ≠ 0 := by omega
      simp [hn0, List.append_assoc]

theorem natRepr_eq (n : Nat) :
    Nat.repr n =
      if n = 0 then "0"
      else (((Nat.digits 10 n).map Nat.digitChar).reverse).asString := by
  show (Nat.toDigits 10 n).asString = _
  rw [show Nat.toDigits 10 n = Nat.toDigitsCore 10 (n + 1) n [] from rfl,
    toDigitsCore_eq (n + 1) n [] (Nat.lt_succ_self n)]
  by_cases hn : n = 0
  · subst hn
    rfl
  · simp [hn]

theorem digitChar_inj_lt : ∀ a < 10, ∀ b < 10, Nat.digitChar a = Nat.digitChar b → a = b := by
  decide

theorem digitChar_ne_underscore : ∀ a < 10, Nat.digitChar a ≠ '_' := by
  decide

theorem map_digitChar_inj :
    ∀ (l1 l2 : List Nat), (∀ x ∈ l1, x < 10) → (∀ x ∈ l2, x < 10) →
      l1.map Nat.digitChar = l2.map Nat.digitChar → l1 = l2 := by
  intro l1
  induction l1 with
  | nil =>
    intro l2 _ _ h
    cases l2 with
    | nil => rfl
    | cons b t2 => simp at h
  | cons a t1 ih =>
    intro l2 h1 h2 h
    cases l2 with
    | nil => simp at h
    | cons b t2 =>
      simp only [List.map_cons, List.cons.injEq] at h
      have ha : a = b :=
        digitChar_inj_lt a (h1 a (List.mem_cons_self _ _)) b
          (h2 b (List.mem_cons_self _ _)) h.1
      have ht : t1 = t2 :=
        ih t2 (fun x hx => h1 x (List.mem_cons_of_mem _ hx))
          (fun x hx => h2 x (List.mem_cons_of_mem _ hx)) h.2
      rw [ha, ht]

theorem digitChar_eq_zero_imp : ∀ d < 10, Nat.digitChar d = '0' → d = 0 := by
  decide

theorem rev_map_digits_ne_single_zero (n : Nat) (hn : n ≠ 0) :
    ((Nat.digits 10 n).map Nat.digitChar).reverse ≠ ['0'] := by
  intro hd
  have hl : (Nat.digits 10 n).length = 1 := by
    have := congrArg List.length hd
    simpa using this
  obtain ⟨d, hd1⟩ : ∃ d, Nat.digits 10 n = [d] := by
    cases hdig : Nat.digits 10 n with
    | nil => rw [hdig] at hl; simp at hl
    | cons d t =>
      rw [hdig] at hl
      simp at hl
      exact ⟨d, by rw [hl]⟩
  rw [hd1] at hd
  simp at hd
  have hdlt : d < 10 :=
    Nat.digits_lt_base (by norm_num) (by rw [hd1]; exact List.mem_singleton_self d)
  have hd0 : d = 0 := digitChar_eq_zero_imp d hdlt hd
  have hof := Nat.ofDigits_digits 10 n
  rw [hd1, hd0] at hof
  simp [Nat.ofDigits] at hof
  exact hn hof.symm

theorem natRepr_injective (m n : Nat) (h : Nat.repr m = Nat.repr n) : m = n := by
  rw [natRepr_eq, natRepr_eq] at h
  by_cases hm : m = 0 <;> by_cases hn : n = 0
  · omega
  · exfalso
    rw [if_pos hm, if_neg hn] at h
    exact rev_map_digits_ne_single_zero n hn (congrArg String.data h).symm
  · exfalso
    rw [if_neg hm, if_pos hn] at h
    exact rev_map_digits_ne_single_zero m hm (congrArg String.data h)
  · rw [if_neg hm, if_neg hn] at h
    have hd : ((Nat.digits 10 m).map Nat.digitChar).reverse =
        ((Nat.digits 10 n).map Nat.digitChar).reverse := congrArg String.data h
    have hmap : (Nat.digits 10 m).map Nat.digitChar = (Nat.digits 10 n).map Nat.digitChar :=
      List.reverse_injective hd
    have hdig : Nat.digits 10 m = Nat.digits 10 n :=
      map_digitChar_inj _ _ (fun x hx => Nat.digits_lt_base (by norm_num) hx)
        (fun x hx => Nat.digits_lt_base (by norm_num) hx) hmap
    calc m = Nat.ofDigits 10 (Nat.digits 10 m) := (Nat.ofDigits_digits 10 m).symm
    _ = Nat.ofDigits 10 (Nat.digits 10 n) := by rw [hdig]
    _ = n := Nat.ofDigits_digits 10 n

theorem natRepr_no_underscore (n : Nat) : '_' ∉ (Nat.repr n).data := by
  rw [natRepr_eq]
  by_cases hn : n = 0
  · rw [if_pos hn]
    decide
  · rw [if_neg hn]
    intro hmem
    have hmem2 : '_' ∈ ((Nat.digits 10 n).map Nat.digitChar).reverse := hmem
    rw [List.mem_reverse] at hmem2
    obtain ⟨d, hd, hdc⟩ := List.mem_map.mp hmem2
    exact digitChar_ne_underscore d (Nat.digits_lt_base (by norm_num) hd) hdc

/-- Splitting a character list at the first occurrence of a separator is
unambiguous. -/
theorem append_sep_inj (sep : Char) :
    ∀ (p1 p2 s1 s2 : List Char), sep ∉ p1 → sep ∉ p2 →
      p1 ++ sep :: s1 = p2 ++ sep :: s2 → p1 = p2 ∧ s1 = s2 := by
  intro p1
  induction p1 with
  | nil =>
    intro p2 s1 s2 _ h2 h
    cases p2 with
    | nil => simpa using h
    | cons c q2 =>
      exfalso
      simp only [List.nil_append, List.cons_append, List.cons.injEq] at h
      exact h2 (h.1 ▸ List.mem_cons_self _ _)
  | cons c q1 ih =>
    intro p2 s1 s2 h1 h2 h
    cases p2 with
    | nil =>
      exfalso
      simp only [List.nil_append, List.cons_append, List.cons.injEq] at h
      exact h1 (h.1.symm ▸ List.mem_cons_self _ _)
    | cons d q2 =>
      simp only [List.cons_append, List.cons.injEq] at h
      have hq := ih q2 s1 s2 (fun hm => h1 (List.mem_cons_of_mem _ hm))
        (fun hm => h2 (List.mem_cons_of_mem _ hm)) h.2
      exact ⟨by rw [h.1, hq.1], hq.2⟩

theorem toString_nat_data (n : Nat) : (toString n).data = (Nat.repr n).data := rfl

/-- Claim C9 (amended): the synthesized placeholder determines the file base
name and the per-file raw counter — `_noid_<base>_<count>` equals
`_noid_<base2>_<count2>` exactly when both components agree (the counter
prints as digits only, so the last underscore splits unambiguously). Hence
placeholders of distinct identifier-less events within one file, and
placeholders from files with distinct base names, never collide; but
same-named files in different directories reuse the same placeholders, and a
real identifier of the same textual form is not excluded. -/
theorem synthRequestID_inj (b1 b2 : String) (n1 n2 : Nat) :
    synthRequestID b1 n1 = synthRequestID b2 n2 ↔ b1 = b2 ∧ n1 = n2 := by
  constructor
  · intro h
    have hdata := congrArg String.data h
    simp only [synthRequestID, String.data_append] at hdata
    have hx : b1.data ++ '_' :: (toString n1).data =
        b2.data ++ '_' :: (toString n2).data := by
      simp only [List.append_assoc, List.singleton_append] at hdata
      exact List.append_cancel_left hdata
    have hrev := congrArg List.reverse hx
    simp only [List.reverse_append, List.reverse_cons, List.append_assoc,
      List.singleton_append] at hrev
    have hsplit := append_sep_inj '_' ((toString n1).data).reverse
      ((toString n2).data).reverse b1.data.reverse b2.data.reverse
      (by rw [List.mem_reverse, toString_nat_data]; exact natRepr_no_underscore n1)
      (by rw [List.mem_reverse, toString_nat_data]; exact natRepr_no_underscore n2)
      hrev
    have hb : b1 = b2 :=
      String.ext (List.reverse_injective hsplit.2)
    have hn : n1 = n2 := by
      apply natRepr_injective
      apply String.ext
      rw [← toString_nat_data, ← toString_nat_data]
      exact List.reverse_injective hsplit.1
    exact ⟨hb, hn⟩
  · rintro ⟨rfl, rfl⟩
    rfl

theorem bucketIn2_updMap (m : List (String × List (String × Bucket)))
    (okey : String) (F : List (String × Bucket) → List (String × Bucket))
    (k1 k2 : String) :
    bucketIn2 (updMap m okey [] F) k1 k2 =
      if k1 = okey then bucketIn (F (lookupMapD m okey [])) k2
      else bucketIn2 m k1 k2 := by
  by_cases h : k1 = okey
  · subst h
    rw [bucketIn2, lookupMapD_updMap_self, if_pos rfl]
  · rw [bucketIn2, lookupMapD_updMap_ne _ _ _ _ _ _ h, if_neg h]
    rfl

theorem bucketIn3_updMap (m : List (String × List (String × List (String × Bucket))))
    (okey : String)
    (G : List (String × List (String × Bucket)) → List (String × List (String × Bucket)))
    (k1 k2 k3 : String) :
    bucketIn3 (updMap m okey [] G) k1 k2 k3 =
      if k1 = okey then bucketIn2 (G (lookupMapD m okey [])) k2 k3
      else bucketIn3 m k1 k2 k3 := by
  by_cases h : k1 = okey
  · subst h
    rw [bucketIn3, lookupMapD_updMap_self, if_pos rfl]
  · rw [bucketIn3, lookupMapD_updMap_ne _ _ _ _ _ _ h, if_neg h]
    rfl

theorem processLine_kept (tparse : String → Option Int) (localDate : Int → String)
    (cutoff : Int) (hasCutoff : Bool) (projectSlug fileBase : String)
    (st : ParseFileState) (rec : JsonRecord)
    (hk : keptBillable tparse localDate cutoff hasCutoff rec)
    (hid : rec.requestID ≠ "") :
    (processLine tparse localDate cutoff hasCutoff projectSlug fileBase st
        (.record rec)).deduped =
      upsert st.deduped rec.requestID
        (mkDedup tparse localDate cutoff hasCutoff projectSlug rec) := by
  obtain ⟨hu, hm, hsyn, hdt⟩ := hk
  cases husage : rec.message.usage with
  | none => rw [husage] at hu; simp at hu
  | some u =>
    cases hdate : resolveDate tparse localDate cutoff hasCutoff rec.timestamp with
    | none => rw [hdate] at hdt; simp at hdt
    | some p =>
      obtain ⟨dateStr, errInc⟩ := p
      simp [processLine, husage, hm, hsyn, hdate, hid, mkDedup]

theorem foldl_processLine_same_id (tparse : String → Option Int)
    (localDate : Int → String) (cutoff : Int) (hasCutoff : Bool)
    (projectSlug fileBase : String) (id : String) (hid : id ≠ "") :
    ∀ (recs : List JsonRecord) (st : ParseFileState) (hne : recs ≠ []),
      (∀ rec ∈ recs, rec.requestID = id ∧
        keptBillable tparse localDate cutoff hasCutoff rec) →
      ((recs.map LineItem.record).foldl
          (processLine tparse localDate cutoff hasCutoff projectSlug fileBase)
          st).deduped =
        upsert st.deduped id
          (mkDedup tparse localDate cutoff hasCutoff projectSlug
            (recs.getLast hne)) := by
  intro recs
  induction recs with
  | nil =>
    intro st hne
    exact absurd rfl hne
  | cons r rest ih =>
    intro st hne hall
    have hr := hall r (List.mem_cons_self _ _)
    have hrid : r.requestID ≠ "" := by rw [hr.1]; exact hid
    by_cases hrest : rest = []
    · subst hrest
      simp only [List.map_cons, List.map_nil, List.foldl_cons, List.foldl_nil]
      rw [processLine_kept _ _ _ _ _ _ _ _ hr.2 hrid, hr.1]
      rfl
    · simp only [List.map_cons, List.foldl_cons]
      rw [ih _ hrest (fun rec h => hall rec (List.mem_cons_of_mem _ h)),
        processLine_kept _ _ _ _ _ _ _ _ hr.2 hrid, hr.1, upsert_upsert_self]
      congr 1
      congr 1
      exact (List.getLast_cons hrest).symm

theorem aggregate_singleton (tf pe : Nat) (key : String) (r : DedupRecord) :
    (bucketIn (parseLogsAggregate tf pe [(key, r)]).modelUsage r.model).requests = 1 ∧
    (bucketIn2 (parseLogsAggregate tf pe [(key, r)]).dailyUsage
      r.date r.model).requests = 1 ∧
    (bucketIn2 (parseLogsAggregate tf pe [(key, r)]).projectUsage
      r.project r.model).requests = 1 := by
  refine ⟨?_, ?_, ?_⟩
  · show (bucketIn (updMap [] r.model Bucket.zero (Bucket.accum · r)) r.model).requests = 1
    rw [bucketIn_updMap_self]
    rfl
  · show (bucketIn2 (updMap [] r.date []
      (fun inner => updMap inner r.model Bucket.zero (Bucket.accum · r)))
        r.date r.model).requests = 1
    rw [bucketIn2, lookupMapD_updMap_self, bucketIn_updMap_self]
    rfl
  · show (bucketIn2 (updMap [] r.project []
      (fun inner => updMap inner r.model Bucket.zero (Bucket.accum · r)))
        r.project r.model).requests = 1
    rw [bucketIn2, lookupMapD_updMap_self, bucketIn_updMap_self]
    rfl

theorem foldl_foldRecord_counts (recs : List DedupRecord) (res : ParseResult) :
    (recs.foldl foldRecord res).totalRecords = res.totalRecords ∧
    (recs.foldl foldRecord res).totalFiles = res.totalFiles ∧
    (recs.foldl foldRecord res).parseErrors = res.parseErrors := by
  induction recs generalizing res with
  | nil => exact ⟨rfl, rfl, rfl⟩
  | cons r rest ih => exact ih (foldRecord res r)

/-! ### The claims -/

/-- Claim C1: for every canonical record folded during whole-corpus
aggregation, the four views — by model; by (date, model); by (project,
model); by (project, branch, model) with branch defaulting to the reserved
"(no branch)" sentinel when the event carries no branch label — are updated
in lockstep, each of the record's four buckets receiving the identical
contribution `Bucket.accum · r` whose request counter increments by exactly
one, while every other bucket of every view is left untouched. -/
theorem foldRecord_four_views_lockstep (res : ParseResult) (r : DedupRecord) :
    (r.gitBranch = "" → branchKeyOf r = "(no branch)") ∧
    bucketIn (foldRecord res r).modelUsage r.model =
      (bucketIn res.modelUsage r.model).accum r ∧
    bucketIn2 (foldRecord res r).dailyUsage r.date r.model =
      (bucketIn2 res.dailyUsage r.date r.model).accum r ∧
    bucketIn2 (foldRecord res r).projectUsage r.project r.model =
      (bucketIn2 res.projectUsage r.project r.model).accum r ∧
    bucketIn3 (foldRecord res r).branchUsage r.project (branchKeyOf r) r.model =
      (bucketIn3 res.branchUsage r.project (branchKeyOf r) r.model).accum r ∧
    (∀ b : Bucket, (b.accum r).requests = b.requests + 1) ∧
    (∀ k, k ≠ r.model →
      bucketIn (foldRecord res r).modelUsage k = bucketIn res.modelUsage k) ∧
    (∀ k1 k2, k1 ≠ r.date ∨ k2 ≠ r.model →
      bucketIn2 (foldRecord res r).dailyUsage k1 k2 =
        bucketIn2 res.dailyUsage k1 k2) ∧
    (∀ k1 k2, k1 ≠ r.project ∨ k2 ≠ r.model →
      bucketIn2 (foldRecord res r).projectUsage k1 k2 =
        bucketIn2 res.projectUsage k1 k2) ∧
    (∀ k1 k2 k3, k1 ≠ r.project ∨ k2 ≠ branchKeyOf r ∨ k3 ≠ r.model →
      bucketIn3 (foldRecord res r).branchUsage k1 k2 k3 =
        bucketIn3 res.branchUsage k1 k2 k3) := by
  have hmodel : (foldRecord res r).modelUsage =
      updMap res.modelUsage r.model Bucket.zero (Bucket.accum · r) := rfl
  have hdaily : (foldRecord res r).dailyUsage =
      updMap res.dailyUsage r.date []
        (fun inner => updMap inner r.model Bucket.zero (Bucket.accum · r)) := rfl
  have hproj : (foldRecord res r).projectUsage =
      updMap res.projectUsage r.project []
        (fun inner => updMap inner r.model Bucket.zero (Bucket.accum · r)) := rfl
  have hbr : (foldRecord res r).branchUsage =
      updMap res.branchUsage r.project []
        (fun byBranch => updMap byBranch (branchKeyOf r) []
          (fun inner => updMap inner r.model Bucket.zero (Bucket.accum · r))) := rfl
  refine ⟨?_, ?_, ?_, ?_, ?_, fun b => rfl, ?_, ?_, ?_, ?_⟩
  · intro h
    rw [branchKeyOf, if_pos h]
  · rw [hmodel, bucketIn_updMap_self]
  · rw [hdaily, bucketIn2_updMap, if_pos rfl, bucketIn_updMap_self]
    rfl
  · rw [hproj, bucketIn2_updMap, if_pos rfl, bucketIn_updMap_self]
    rfl
  · rw [hbr, bucketIn3_updMap, if_pos rfl, bucketIn2_updMap, if_pos rfl,
      bucketIn_updMap_self]
    rfl
  · intro k hk
    rw [hmodel, bucketIn_updMap_ne _ _ _ _ hk]
  · intro k1 k2 hk
    rw [hdaily, bucketIn2_updMap]
    by_cases h1 : k1 = r.date
    · rcases hk with hk | hk
      · exact absurd h1 hk
      · rw [if_pos h1, bucketIn_updMap_ne _ _ _ _ hk, h1]
        rfl
    · rw [if_neg h1]
  · intro k1 k2 hk
    rw [hproj, bucketIn2_updMap]
    by_cases h1 : k1 = r.project
    · rcases hk with hk | hk
      · exact absurd h1 hk
      · rw [if_pos h1, bucketIn_updMap_ne _ _ _ _ hk, h1]
        rfl
    · rw [if_neg h1]
  · intro k1 k2 k3 hk
    rw [hbr, bucketIn3_updMap]
    by_cases h1 : k1 = r.project
    · rw [if_pos h1, bucketIn2_updMap]
      by_cases h2 : k2 = branchKeyOf r
      · rcases hk with hk | hk | hk
        · exact absurd h1 hk
        · exact absurd h2 hk
        · rw [if_pos h2, bucketIn_updMap_ne _ _ _ _ hk, h1, h2]
          rfl
      · rw [if_neg h2, h1]
        rfl
    · rw [if_neg h1]

/-- Witness for C1 at a concrete record and a concrete distinct key: the
branch key of a branch-less record is the sentinel, and an unrelated model
key is untouched by the fold. -/
theorem foldRecord_four_views_lockstep_witness :
    branchKeyOf ⟨"claude-opus-4-6", "proj", "2026-02-18", "", ⟨1, 2, 3, 4, none⟩⟩ =
      "(no branch)" ∧
    bucketIn (foldRecord ⟨[], [], [], [], 0, 0, 0⟩
        ⟨"claude-opus-4-6", "proj", "2026-02-18", "", ⟨1, 2, 3, 4, none⟩⟩).modelUsage
      "other-model" =
      bucketIn (⟨[], [], [], [], 0, 0, 0⟩ : ParseResult).modelUsage "other-model" :=
  ⟨(foldRecord_four_views_lockstep ⟨[], [], [], [], 0, 0, 0⟩
      ⟨"claude-opus-4-6", "proj", "2026-02-18", "", ⟨1, 2, 3, 4, none⟩⟩).1 rfl,
   (foldRecord_four_views_lockstep ⟨[], [], [], [], 0, 0, 0⟩
      ⟨"claude-opus-4-6", "proj", "2026-02-18", "", ⟨1, 2, 3, 4, none⟩⟩).2.2.2.2.2.2.1
     "other-model" (by decide)⟩

/-- Claim C2: deduplication is last-write-wins with full record replacement —
for any nonempty sequence of kept events sharing one request identifier,
processed in order through the scan loop starting from an empty dedup map,
the map ends with exactly one canonical record for that identifier, equal in
every field to the record built from the last event; and that single
canonical record contributes exactly one request to each bucket it reaches
in every view. -/
theorem dedup_last_write_wins (tparse : String → Option Int)
    (localDate : Int → String) (cutoff : Int) (hasCutoff : Bool)
    (projectSlug fileBase : String) (recs : List JsonRecord) (id : String)
    (hne : recs ≠ []) (hid : id ≠ "")
    (hall : ∀ rec ∈ recs, rec.requestID = id ∧
      keptBillable tparse localDate cutoff hasCutoff rec) :
    (parseFile tparse localDate cutoff hasCutoff projectSlug fileBase []
        (recs.map LineItem.record)).deduped =
      [(id, mkDedup tparse localDate cutoff hasCutoff projectSlug
        (recs.getLast hne))] ∧
    ∀ tf pe : Nat,
      (bucketIn (parseLogsAggregate tf pe [(id, mkDedup tparse localDate cutoff
          hasCutoff projectSlug (recs.getLast hne))]).modelUsage
        (recs.getLast hne).message.model).requests = 1 ∧
      (bucketIn2 (parseLogsAggregate tf pe [(id, mkDedup tparse localDate cutoff
          hasCutoff projectSlug (recs.getLast hne))]).dailyUsage
        (mkDedup tparse localDate cutoff hasCutoff projectSlug
          (recs.getLast hne)).date
        (recs.getLast hne).message.model).requests = 1 ∧
      (bucketIn2 (parseLogsAggregate tf pe [(id, mkDedup tparse localDate cutoff
          hasCutoff projectSlug (recs.getLast hne))]).projectUsage
        projectSlug (recs.getLast hne).message.model).requests = 1 := by
  constructor
  · rw [parseFile,
      foldl_processLine_same_id tparse localDate cutoff hasCutoff projectSlug
        fileBase id hid recs ⟨0, 0, []⟩ hne hall]
    rfl
  · intro tf pe
    exact aggregate_singleton tf pe id
      (mkDedup tparse localDate cutoff hasCutoff projectSlug (recs.getLast hne))

/-- Witness for C2: two streaming events with identifier `req_1` and growing
output counts collapse to one canonical record equal to the last event. -/
theorem dedup_last_write_wins_witness :
    (parseFile (fun _ => none) (fun _ => "1970-01-01") 0 false "proj"
        "session.jsonl" [] ([wRec1, wRec2].map LineItem.record)).deduped =
      [("req_1", mkDedup (fun _ => none) (fun _ => "1970-01-01") 0 false "proj"
        ([wRec1, wRec2].getLast (by decide)))] :=
  (dedup_last_write_wins (fun _ => none) (fun _ => "1970-01-01") 0 false "proj"
    "session.jsonl" [wRec1, wRec2] "req_1" (by decide) (by decide)
    (by decide)).1

/-- Claim C3: additivity — for every aggregation result and every model key,
summing that model's buckets across the by-(date, model) view equals the
top-level by-model bucket exactly (in every token field, the cost and the
request count), and likewise for the by-(project, model) view. -/
theorem parseLogs_additivity (totalFiles parseErrors : Nat)
    (deduped : List (String × DedupRecord)) (model : String) :
    sumOver (parseLogsAggregate totalFiles parseErrors deduped).dailyUsage model =
      bucketIn (parseLogsAggregate totalFiles parseErrors deduped).modelUsage
        model ∧
    sumOver (parseLogsAggregate totalFiles parseErrors deduped).projectUsage model =
      bucketIn (parseLogsAggregate totalFiles parseErrors deduped).modelUsage
        model :=
  additivityInv_foldl (deduped.map Prod.snd)
    { modelUsage := [], dailyUsage := [], projectUsage := [], branchUsage := [],
      totalFiles := totalFiles, totalRecords := deduped.length,
      parseErrors := parseErrors }
    (fun _ => ⟨rfl, rfl⟩) model

/-- Claim C4: for every model identifier and usage payload, the cost is the
sum over the five components (input, output, cache-write-5m, cache-write-1h,
cache-read) of (token count / 1e6) × component rate, where the resolved rate
card prices cache writes and reads at the fixed multiples 1.25×, 2.0× and
0.1× of its input rate. -/
theorem calcCost_five_components (model : String) (usage : Usage) :
    calcCost model usage =
      (usage.inputTokens : ℚ) / 1000000 * (resolvePricing model).input +
      (usage.outputTokens : ℚ) / 1000000 * (resolvePricing model).output +
      (usage.cacheWriteTokens.1 : ℚ) / 1000000 *
        (1.25 * (resolvePricing model).input) +
      (usage.cacheWriteTokens.2 : ℚ) / 1000000 *
        (2.0 * (resolvePricing model).input) +
      (usage.cacheReadInputTokens : ℚ) / 1000000 *
        (0.1 * (resolvePricing model).input) := by
  simp only [calcCost, ModelPricing.cacheWrite5m, ModelPricing.cacheWrite1h,
    ModelPricing.cacheRead]
  ring

/-- Claim C5: pricing resolution runs exact match first; otherwise it takes a
longest matching family prefix — legitimate because the table is sorted by
descending prefix length before lookup, so the first hit is a longest hit —
and a model matching no prefix resolves to the global fallback card. -/
theorem resolvePricing_resolution (model : String) :
    (∀ p, lookupMap pricingTable model = some p → resolvePricing model = p) ∧
    (lookupMap pricingTable model = none →
      ∀ fp ∈ familyPrefixes, strStartsWith model fp.1 = true →
        ∃ best ∈ familyPrefixes, strStartsWith model best.1 = true ∧
          (∀ fp2 ∈ familyPrefixes, strStartsWith model fp2.1 = true →
            fp2.1.length ≤ best.1.length) ∧
          resolvePricing model = lookupMapD pricingTable best.2 ⟨0, 0⟩) ∧
    (lookupMap pricingTable model = none →
      (∀ fp ∈ familyPrefixes, strStartsWith model fp.1 = false) →
      resolvePricing model = defaultPricing) := by
  refine ⟨?_, ?_, ?_⟩
  · intro p hp
    simp [resolvePricing, hp]
  · intro hnone fp hfp hm
    cases hfind : findFamily familyPrefixesSorted model with
    | none =>
      exfalso
      have hall := (findFamily_eq_none_iff familyPrefixesSorted model).mp hfind
      have hmem : fp ∈ familyPrefixesSorted :=
        familyPrefixesSorted_perm.mem_iff.mpr hfp
      rw [hall fp hmem] at hm
      exact Bool.false_ne_true hm
    | some best =>
      obtain ⟨hmem, hmatch, hmax⟩ := findFamily_longest familyPrefixesSorted model
        familyPrefixesSorted_sorted best hfind
      refine ⟨best, familyPrefixesSorted_perm.mem_iff.mp hmem, hmatch, ?_, ?_⟩
      · intro fp2 hfp2 hm2
        exact hmax fp2 (familyPrefixesSorted_perm.mem_iff.mpr hfp2) hm2
      · simp [resolvePricing, hnone, hfind]
  · intro hnone hall
    have hfind : findFamily familyPrefixesSorted model = none :=
      (findFamily_eq_none_iff familyPrefixesSorted model).mpr
        (fun fp hfp => hall fp (familyPrefixesSorted_perm.mem_iff.mp hfp))
    simp [resolvePricing, hnone, hfind]

/-- Witness for C5: `claude-opus-4-5-20260101` misses the exact table and
resolves through its longest matching prefix, and a wholly unknown
identifier falls back to the default card. -/
theorem resolvePricing_resolution_witness :
    (∃ best ∈ familyPrefixes,
      strStartsWith "claude-opus-4-5-20260101" best.1 = true ∧
      (∀ fp2 ∈ familyPrefixes,
        strStartsWith "claude-opus-4-5-20260101" fp2.1 = true →
        fp2.1.length ≤ best.1.length) ∧
      resolvePricing "claude-opus-4-5-20260101" =
        lookupMapD pricingTable best.2 ⟨0, 0⟩) ∧
    resolvePricing "zz-unknown-model" = defaultPricing :=
  ⟨(resolvePricing_resolution "claude-opus-4-5-20260101").2.1 (by decide)
      ("claude-opus-4-5", "claude-opus-4-5-20251101") (by decide) (by decide),
   (resolvePricing_resolution "zz-unknown-model").2.2 (by decide) (by decide)⟩

/-- Claim C6: cache-write source resolution — a present, non-trivial
structured 5m/1h breakdown supplies the two cache-write counts; otherwise a
positive flat cache-creation total is booked entirely as 5-minute tier with
a zero 1-hour count. -/
theorem cacheWriteTokens_resolution (u : Usage) :
    (∀ cc, u.cacheCreation = some cc →
      ¬(cc.ephemeral5mInputTokens = 0 ∧ cc.ephemeral1hInputTokens = 0) →
      u.cacheWriteTokens = (cc.ephemeral5mInputTokens, cc.ephemeral1hInputTokens)) ∧
    ((u.cacheCreation = none ∨
        ∃ cc, u.cacheCreation = some cc ∧ cc.ephemeral5mInputTokens = 0 ∧
          cc.ephemeral1hInputTokens = 0) →
      0 < u.cacheCreationInputTokens →
      u.cacheWriteTokens = (u.cacheCreationInputTokens, 0)) := by
  constructor
  · intro cc hcc hnt
    have hcond : ¬(cc.ephemeral5mInputTokens = 0 ∧ cc.ephemeral1hInputTokens = 0 ∧
        0 < u.cacheCreationInputTokens) := by
      intro hc
      exact hnt ⟨hc.1, hc.2.1⟩
    simp [Usage.cacheWriteTokens, hcc, hcond]
  · intro hcase hpos
    rcases hcase with hnone | ⟨cc, hcc, h5, h1⟩
    · simp [Usage.cacheWriteTokens, hnone, hpos]
    · simp [Usage.cacheWriteTokens, hcc, h5, h1, hpos]

/-- Witness for C6: a non-trivial breakdown (200, 100) wins over the flat
total, and a flat-only payload books 500 tokens as the 5-minute tier. -/
theorem cacheWriteTokens_resolution_witness :
    Usage.cacheWriteTokens ⟨100, 50, 0, 999, some ⟨200, 100⟩⟩ = (200, 100) ∧
    Usage.cacheWriteTokens ⟨100, 50, 0, 500, none⟩ = (500, 0) :=
  ⟨(cacheWriteTokens_resolution ⟨100, 50, 0, 999, some ⟨200, 100⟩⟩).1
      ⟨200, 100⟩ rfl (by decide),
   (cacheWriteTokens_resolution ⟨100, 50, 0, 500, none⟩).2 (Or.inl rfl)
      (by decide)⟩

/-- Claim C7, counterexample to the claim as stated: with an active day
cutoff, a line whose timestamp is non-empty but unparseable is NOT dropped —
the scan loop increments the parse-error counter and still writes a
canonical record bucketed under "unknown". -/
theorem timestamp_parse_error_cutoff_counterexample :
    (processLine (fun _ => none) (fun _ => "1970-01-01") 0 true "proj"
        "session.jsonl" ⟨0, 0, []⟩
        (.record ⟨"req_bad", "not-a-timestamp", "",
          ⟨"claude-opus-4-6", some ⟨100, 50, 0, 0, none⟩⟩⟩)).parseErrs = 1 ∧
    (processLine (fun _ => none) (fun _ => "1970-01-01") 0 true "proj"
        "session.jsonl" ⟨0, 0, []⟩
        (.record ⟨"req_bad", "not-a-timestamp", "",
          ⟨"claude-opus-4-6", some ⟨100, 50, 0, 0, none⟩⟩⟩)).deduped =
      [("req_bad", ⟨"claude-opus-4-6", "proj", "unknown", "",
        ⟨100, 50, 0, 0, none⟩⟩)] := by
  constructor
  · rfl
  · rfl

/-- Claim C7 (amended): for every line whose timestamp string is non-empty
but fails strict RFC3339 parsing, the parse-error counter is incremented and
the event is kept, bucketed under the reserved "unknown" date marker — with
or without an active day cutoff (only an event with an EMPTY timestamp is
dropped by an active cutoff). -/
theorem timestamp_parse_error_keeps_event (tparse : String → Option Int)
    (localDate : Int → String) (cutoff : Int) (hasCutoff : Bool)
    (projectSlug fileBase : String) (st : ParseFileState) (rec : JsonRecord)
    (u : Usage) (hu : rec.message.usage = some u)
    (hm : rec.message.model ≠ "") (hsyn : rec.message.model ≠ "<synthetic>")
    (hts : rec.timestamp ≠ "") (hfail : tparse rec.timestamp = none) :
    processLine tparse localDate cutoff hasCutoff projectSlug fileBase st
        (.record rec) =
      { rawCount := st.rawCount + 1, parseErrs := st.parseErrs + 1,
        deduped := upsert st.deduped
          (if rec.requestID = "" then synthRequestID fileBase (st.rawCount + 1)
           else rec.requestID)
          ⟨rec.message.model, projectSlug, "unknown", rec.gitBranch, u⟩ } := by
  have hdate : resolveDate tparse localDate cutoff hasCutoff rec.timestamp =
      some ("unknown", true) := by
    simp [resolveDate, hts, hfail]
  simp [processLine, hu, hm, hsyn, hdate]

/-- Witness for C7 (amended), with the cutoff ACTIVE: the unparseable
timestamp bumps the error counter and the event lands under "unknown". -/
theorem timestamp_parse_error_keeps_event_witness :
    processLine (fun _ => none) (fun _ => "1970-01-01") 0 true "proj"
        "session.jsonl" ⟨0, 0, []⟩
        (.record ⟨"req_bad", "not-a-timestamp", "",
          ⟨"claude-opus-4-6", some ⟨100, 50, 0, 0, none⟩⟩⟩) =
      { rawCount := 0 + 1, parseErrs := 0 + 1,
        deduped := upsert []
          (if ("req_bad" : String) = "" then synthRequestID "session.jsonl" (0 + 1)
           else "req_bad")
          ⟨"claude-opus-4-6", "proj", "unknown", "", ⟨100, 50, 0, 0, none⟩⟩ } :=
  timestamp_parse_error_keeps_event (fun _ => none) (fun _ => "1970-01-01") 0
    true "proj" "session.jsonl" ⟨0, 0, []⟩
    ⟨"req_bad", "not-a-timestamp", "",
      ⟨"claude-opus-4-6", some ⟨100, 50, 0, 0, none⟩⟩⟩
    ⟨100, 50, 0, 0, none⟩ rfl (by decide) (by decide) (by decide) rfl

/-- Claim C9, counterexample to the claim as stated: identifier-less events
in two same-named files (`session.jsonl` under two different projects)
receive the same synthesized placeholder, and a real identifier of the same
textual form collides too — three distinct events end up merged into one
canonical record. -/
theorem placeholder_cross_file_collision_counterexample :
    (parseFile (fun _ => none) (fun _ => "1970-01-01") 0 false "proj-c"
        "other.jsonl"
        (parseFile (fun _ => none) (fun _ => "1970-01-01") 0 false "proj-b"
          "session.jsonl"
          (parseFile (fun _ => none) (fun _ => "1970-01-01") 0 false "proj-a"
            "session.jsonl" []
            [.record ⟨"", "", "", ⟨"claude-opus-4-6",
              some ⟨100, 50, 0, 0, none⟩⟩⟩]).deduped
          [.record ⟨"", "", "", ⟨"claude-sonnet-4-6",
            some ⟨200, 100, 0, 0, none⟩⟩⟩]).deduped
        [.record ⟨"_noid_session.jsonl_1", "", "", ⟨"claude-haiku-4-5-20251001",
          some ⟨300, 10, 0, 0, none⟩⟩⟩]).deduped =
      [("_noid_session.jsonl_1", ⟨"claude-haiku-4-5-20251001", "proj-c",
        "unknown", "", ⟨300, 10, 0, 0, none⟩⟩)] := by
  decide

/-- Claim C10: counter consistency — for every aggregation result, the sum of
the request counters over the top-level by-model buckets, as also returned by
`Totals`, equals `TotalRecords`, the number of canonical records after
deduplication. -/
theorem totals_requests_eq_totalRecords (totalFiles parseErrors : Nat)
    (deduped : List (String × DedupRecord)) :
    (parseLogsAggregate totalFiles parseErrors deduped).totals.requests =
      (parseLogsAggregate totalFiles parseErrors deduped).totalRecords ∧
    reqSum (parseLogsAggregate totalFiles parseErrors deduped).modelUsage =
      (parseLogsAggregate totalFiles parseErrors deduped).totalRecords := by
  have h1 : reqSum (parseLogsAggregate totalFiles parseErrors deduped).modelUsage =
      deduped.length := by
    have h0 := reqSum_foldl (deduped.map Prod.snd)
      { modelUsage := [], dailyUsage := [], projectUsage := [], branchUsage := [],
        totalFiles := totalFiles, totalRecords := deduped.length,
        parseErrors := parseErrors }
    simpa [parseLogsAggregate, reqSum] using h0
  have h2 : (parseLogsAggregate totalFiles parseErrors deduped).totalRecords =
      deduped.length :=
    (foldl_foldRecord_counts (deduped.map Prod.snd) _).1
  exact ⟨by rw [totals_requests_eq_reqSum, h1, h2], by rw [h1, h2]⟩

end Goccc
